import Mathlib

/-!
Verification of `src/ui/background_pattern.rs` of `egui-snarl`.

The module is embedded shallowly over exact rational arithmetic (`ℚ` in
place of `f32`).  The geometric primitives (`Pos2`, `Vec2`, `Rect`,
`Rot2`) come from the external `egui::emath` crate; they are translated
here from that crate's definitions as the spec describes them
(component-wise points/vectors, rectangle centre, rotation by a
cosine/sine pair, bounding box of a rotated rectangle).  The painter and
the style provider are external collaborators: drawing is modelled as a
trace of emitted effects, and the style provider as a function from the
scale to a stroke.
-/

namespace EguiSnarl

/-- Model of `egui::Vec2`, a 2D vector with exact coordinates. -/
structure Vec2 where
  x : ℚ
  y : ℚ
deriving DecidableEq, Repr

/-- Model of `egui::Pos2`, a 2D point with exact coordinates. -/
structure Pos2 where
  x : ℚ
  y : ℚ
deriving DecidableEq, Repr

/-- Constructor `egui::vec2`. -/
def vec2 (x y : ℚ) : Vec2 := ⟨x, y⟩

/-- Constructor `egui::pos2`. -/
def pos2 (x y : ℚ) : Pos2 := ⟨x, y⟩

/-- Model of `Vec2::to_pos2`. -/
def Vec2.toPos2 (v : Vec2) : Pos2 := ⟨v.x, v.y⟩

/-- Model of `Pos2::to_vec2`. -/
def Pos2.toVec2 (p : Pos2) : Vec2 := ⟨p.x, p.y⟩

/-- Component-wise minimum, `Vec2::min`. -/
def Vec2.cmin (a b : Vec2) : Vec2 := ⟨min a.x b.x, min a.y b.y⟩

/-- Component-wise maximum, `Vec2::max`. -/
def Vec2.cmax (a b : Vec2) : Vec2 := ⟨max a.x b.x, max a.y b.y⟩

instance : HAdd Pos2 Vec2 Pos2 := ⟨fun p v => ⟨p.x + v.x, p.y + v.y⟩⟩

instance : HSub Pos2 Vec2 Pos2 := ⟨fun p v => ⟨p.x - v.x, p.y - v.y⟩⟩

instance : HDiv Pos2 ℚ Pos2 := ⟨fun p s => ⟨p.x / s, p.y / s⟩⟩

instance : HMul Pos2 ℚ Pos2 := ⟨fun p s => ⟨p.x * s, p.y * s⟩⟩

instance : HDiv Vec2 ℚ Vec2 := ⟨fun v s => ⟨v.x / s, v.y / s⟩⟩

instance : HMul Vec2 ℚ Vec2 := ⟨fun v s => ⟨v.x * s, v.y * s⟩⟩

/-- Axis-aligned rectangle, modelling `egui::Rect`. -/
structure Rect where
  min : Pos2
  max : Pos2
deriving DecidableEq, Repr

/-- Model of `Rect::from_min_max`. -/
def Rect.fromMinMax (a b : Pos2) : Rect := ⟨a, b⟩

/-- Model of `Rect::center`: the geometric centre of the rectangle. -/
def Rect.center (r : Rect) : Pos2 :=
  ⟨(r.min.x + r.max.x) / 2, (r.min.y + r.max.y) / 2⟩

/-- Model of `Rect::left_top`. -/
def Rect.leftTop (r : Rect) : Pos2 := ⟨r.min.x, r.min.y⟩

/-- Model of `Rect::right_top`. -/
def Rect.rightTop (r : Rect) : Pos2 := ⟨r.max.x, r.min.y⟩

/-- Model of `Rect::left_bottom`. -/
def Rect.leftBottom (r : Rect) : Pos2 := ⟨r.min.x, r.max.y⟩

/-- Model of `Rect::right_bottom`. -/
def Rect.rightBottom (r : Rect) : Pos2 := ⟨r.max.x, r.max.y⟩

/-- Rotation, modelling `egui::emath::Rot2`: stores the sine and cosine
of the angle.  `Rot2::from_angle(a)` is the pair `(sin a, cos a)`; since
sine and cosine are transcendental, rotations are passed as explicit
sine/cosine pairs in this development (for `angle = 0` the pair is
`(0, 1)`). -/
structure Rot2 where
  s : ℚ
  c : ℚ
deriving DecidableEq, Repr

/-- The identity rotation: `Rot2::from_angle(0.0)`, i.e. sine `0`,
cosine `1` (both exact in `f32`). -/
def Rot2.identity : Rot2 := ⟨0, 1⟩

/-- Model of `Rot2::length_squared`. -/
def Rot2.lengthSquared (r : Rot2) : ℚ := r.c * r.c + r.s * r.s

/-- Division `Rot2 / f32`: divides both components. -/
instance : HDiv Rot2 ℚ Rot2 := ⟨fun r k => ⟨r.s / k, r.c / k⟩⟩

/-- Model of `Rot2::inverse`: conjugate divided by the squared length. -/
def Rot2.inverse (r : Rot2) : Rot2 :=
  (Rot2.mk (-r.s) r.c) / r.lengthSquared

/-- Product `Rot2 * Vec2`: rotate a vector. -/
instance : HMul Rot2 Vec2 Vec2 :=
  ⟨fun r v => ⟨r.c * v.x - r.s * v.y, r.s * v.x + r.c * v.y⟩⟩

/-- Model of `Rect::rotate_bb`: the axis-aligned bounding box of the four
rotated corners. -/
def Rect.rotateBB (r : Rect) (rot : Rot2) : Rect :=
  let a := rot * r.leftTop.toVec2
  let b := rot * r.rightTop.toVec2
  let c := rot * r.leftBottom.toVec2
  let d := rot * r.rightBottom.toVec2
  Rect.fromMinMax ((a.cmin b).cmin (c.cmin d)).toPos2
    ((a.cmax b).cmax (c.cmax d)).toPos2

/-- Model of `Viewport`: a rectangle in graph space that is visible on
screen. -/
structure Viewport where
  /-- Screen-space rectangle. -/
  rect : Rect
  /-- Scale of the viewport. -/
  scale : ℚ
  /-- Offset of the viewport. -/
  offset : Vec2
deriving DecidableEq, Repr

/-- Model of `Viewport::screen_pos_to_graph`. -/
def Viewport.screenPosToGraph (vp : Viewport) (pos : Pos2) : Pos2 :=
  (pos + vp.offset - vp.rect.center.toVec2) / vp.scale

/-- Model of `Viewport::graph_pos_to_screen`. -/
def Viewport.graphPosToScreen (vp : Viewport) (pos : Pos2) : Pos2 :=
  pos * vp.scale - vp.offset + vp.rect.center.toVec2

/-- Model of `Viewport::graph_vec_to_screen`. -/
def Viewport.graphVecToScreen (vp : Viewport) (size : Vec2) : Vec2 :=
  size * vp.scale

/-- Model of `Viewport::screen_vec_to_graph`. -/
def Viewport.screenVecToGraph (vp : Viewport) (size : Vec2) : Vec2 :=
  size / vp.scale

/-- Model of `Viewport::graph_size_to_screen`. -/
def Viewport.graphSizeToScreen (vp : Viewport) (size : ℚ) : ℚ :=
  size * vp.scale

/-- Model of `Viewport::screen_size_to_graph`. -/
def Viewport.screenSizeToGraph (vp : Viewport) (size : ℚ) : ℚ :=
  size / vp.scale

/-- Stroke style (colour and width), the opaque result of the external
`SnarlStyle::get_bg_pattern_stroke` collaborator. -/
structure Stroke where
  width : ℚ
  color : ℕ
deriving DecidableEq, Repr

/-- Observable effect of one draw call: either a stroke resolution from
the style provider (`snarl_style.get_bg_pattern_stroke(scale, style)`)
or an emitted `painter.line_segment([a, b], stroke)`. -/
inductive Effect where
  | resolveStroke (scale : ℚ) : Effect
  | lineSegment (a b : Pos2) (stroke : Stroke) : Effect
deriving DecidableEq, Repr

/-- Predicate selecting stroke-resolution effects. -/
def Effect.isResolveStroke : Effect → Bool
  | .resolveStroke _ => true
  | .lineSegment _ _ _ => false

/-- Predicate selecting line-segment effects. -/
def Effect.isLineSegment : Effect → Bool
  | .resolveStroke _ => false
  | .lineSegment _ _ _ => true

/-- Model of the `Grid` background pattern struct. -/
structure Grid where
  /-- Spacing between grid lines. -/
  spacing : Vec2
  /-- Angle of the grid. -/
  angle : ℚ
deriving DecidableEq, Repr

/-- Constant `DEFAULT_GRID_SPACING = vec2(50.0, 50.0)`. -/
def DEFAULT_GRID_SPACING : Vec2 := vec2 50 50

/-- Constant `DEFAULT_GRID_ANGLE = 1.0`. -/
def DEFAULT_GRID_ANGLE : ℚ := 1

/-- Model of `Grid::new`: create new grid with given spacing and angle. -/
def Grid.new (spacing : Vec2) (angle : ℚ) : Grid :=
  { spacing := spacing, angle := angle }

/-- Model of `Grid::default`. -/
def Grid.mkDefault : Grid :=
  { spacing := DEFAULT_GRID_SPACING, angle := DEFAULT_GRID_ANGLE }

/-- The clamped spacing of `Grid::draw`:
`vec2(self.spacing.x.max(1.0), self.spacing.y.max(1.0))`. -/
def Grid.effectiveSpacing (g : Grid) : Vec2 :=
  vec2 (max g.spacing.x 1) (max g.spacing.y 1)

/-- The `graph_viewport` of `Grid::draw`:
`Rect::from_min_max(screen_pos_to_graph(rect.min), screen_pos_to_graph(rect.max))`. -/
def graphViewport (vp : Viewport) : Rect :=
  Rect.fromMinMax (vp.screenPosToGraph vp.rect.min)
    (vp.screenPosToGraph vp.rect.max)

/-- The `pattern_bounds` of `Grid::draw`:
`graph_viewport.rotate_bb(rot_inv)` where `rot_inv = rot.inverse()` and
`rot = Rot2::from_angle(self.angle)` is passed explicitly. -/
def patternBounds (rot : Rot2) (vp : Viewport) : Rect :=
  (graphViewport vp).rotateBB rot.inverse

/-- Truncation of a rational toward zero, the rounding used by a Rust
float-to-integer `as` cast. -/
def truncQ (q : ℚ) : ℤ :=
  if q < 0 then ⌈q⌉ else ⌊q⌋

/-- Rust cast `as i64` of a finite float value: round toward zero and
saturate to the `i64` range. -/
def ratAsI64 (q : ℚ) : ℤ :=
  max (-(2 ^ 63)) (min (2 ^ 63 - 1) (truncQ q))

/-- The list of values of the Rust iterator `0..=hi` over `i64`: empty
when `hi < 0`, otherwise `0, 1, …, hi`. -/
def rangeToInclusive (hi : ℤ) : List ℤ :=
  (List.range (hi + 1).toNat).map (fun j : ℕ => (j : ℤ))

/-- The value `min_x = (pattern_bounds.min.x / spacing.x).ceil()` of
`Grid::draw` (`spacing` clamped), exact over the rationals. -/
def Grid.minX (g : Grid) (rot : Rot2) (vp : Viewport) : ℚ :=
  ⌈(patternBounds rot vp).min.x / g.effectiveSpacing.x⌉

/-- The value `max_x = (pattern_bounds.max.x / spacing.x).floor()` of
`Grid::draw`. -/
def Grid.maxX (g : Grid) (rot : Rot2) (vp : Viewport) : ℚ :=
  ⌊(patternBounds rot vp).max.x / g.effectiveSpacing.x⌋

/-- The value `min_y = (pattern_bounds.min.y / spacing.y).ceil()` of
`Grid::draw`. -/
def Grid.minY (g : Grid) (rot : Rot2) (vp : Viewport) : ℚ :=
  ⌈(patternBounds rot vp).min.y / g.effectiveSpacing.y⌉

/-- The value `max_y = (pattern_bounds.max.y / spacing.y).floor()` of
`Grid::draw`. -/
def Grid.maxY (g : Grid) (rot : Rot2) (vp : Viewport) : ℚ :=
  ⌊(patternBounds rot vp).max.y / g.effectiveSpacing.y⌋

/-- The pattern-local x-coordinates of the vertical lines of
`Grid::draw`: the value `x = (x as f32 + min_x) * spacing.x` computed in
each iteration of `for x in 0..=(max_x - min_x) as i64`. -/
def Grid.vertXs (g : Grid) (rot : Rot2) (vp : Viewport) : List ℚ :=
  (rangeToInclusive (ratAsI64 (g.maxX rot vp - g.minX rot vp))).map
    (fun i : ℤ => ((i : ℚ) + g.minX rot vp) * g.effectiveSpacing.x)

/-- The pattern-local y-coordinates of the horizontal lines of
`Grid::draw`: the value `y = (y as f32 + min_y) * spacing.y` computed in
each iteration of `for y in 0..=(max_y - min_y) as i64`. -/
def Grid.horzYs (g : Grid) (rot : Rot2) (vp : Viewport) : List ℚ :=
  (rangeToInclusive (ratAsI64 (g.maxY rot vp - g.minY rot vp))).map
    (fun i : ℤ => ((i : ℚ) + g.minY rot vp) * g.effectiveSpacing.y)

/-- The draw call of one vertical-loop iteration of `Grid::draw`:
`top = rot * vec2(x, pattern_bounds.min.y)`,
`bottom = rot * vec2(x, pattern_bounds.max.y)`, both mapped through
`graph_pos_to_screen`, then `painter.line_segment([top, bottom], bg_stroke)`. -/
def vertDrawCall (rot : Rot2) (vp : Viewport) (pb : Rect) (stroke : Stroke)
    (x : ℚ) : Effect :=
  let top := (rot * vec2 x pb.min.y).toPos2
  let bottom := (rot * vec2 x pb.max.y).toPos2
  Effect.lineSegment (vp.graphPosToScreen top) (vp.graphPosToScreen bottom)
    stroke

/-- The draw call of one horizontal-loop iteration of `Grid::draw`:
`top = rot * vec2(pattern_bounds.min.x, y)`,
`bottom = rot * vec2(pattern_bounds.max.x, y)`, both mapped through
`graph_pos_to_screen`, then `painter.line_segment([top, bottom], bg_stroke)`. -/
def horzDrawCall (rot : Rot2) (vp : Viewport) (pb : Rect) (stroke : Stroke)
    (y : ℚ) : Effect :=
  let top := (rot * vec2 pb.min.x y).toPos2
  let bottom := (rot * vec2 pb.max.x y).toPos2
  Effect.lineSegment (vp.graphPosToScreen top) (vp.graphPosToScreen bottom)
    stroke

/-- Model of `Grid::draw` as the trace of its effects, in program order:
resolve the background stroke from the style provider, run the vertical
loop, run the horizontal loop.  `rot` is the value of
`Rot2::from_angle(self.angle)`, passed as an explicit sine/cosine pair;
`getStroke` models `snarl_style.get_bg_pattern_stroke(·, style)`. -/
def Grid.draw (g : Grid) (rot : Rot2) (vp : Viewport)
    (getStroke : ℚ → Stroke) : List Effect :=
  let bgStroke := getStroke vp.scale
  let pb := patternBounds rot vp
  Effect.resolveStroke vp.scale ::
    ((g.vertXs rot vp).map (vertDrawCall rot vp pb bgStroke) ++
      (g.horzYs rot vp).map (horzDrawCall rot vp pb bgStroke))

/-- Model of the `BackgroundPattern` enum. -/
inductive BackgroundPattern where
  /-- No pattern. -/
  | noPattern : BackgroundPattern
  /-- Linear grid. -/
  | grid (g : Grid) : BackgroundPattern
deriving DecidableEq, Repr

/-- Model of `BackgroundPattern::new`: a grid with the default spacing
and angle. -/
def BackgroundPattern.new : BackgroundPattern :=
  .grid (Grid.new DEFAULT_GRID_SPACING DEFAULT_GRID_ANGLE)

/-- Model of `BackgroundPattern::grid`: grid pattern with given spacing
and angle. -/
def BackgroundPattern.gridWith (spacing : Vec2) (angle : ℚ) : BackgroundPattern :=
  .grid (Grid.new spacing angle)

/-- Model of `BackgroundPattern::draw` as the trace of its effects: the
grid variant delegates to `Grid::draw`, the no-pattern variant does
nothing.  As in `Grid.draw`, `rot` stands for
`Rot2::from_angle(grid.angle)` (ignored by the no-pattern arm). -/
def BackgroundPattern.draw (p : BackgroundPattern) (rot : Rot2)
    (vp : Viewport) (getStroke : ℚ → Stroke) : List Effect :=
  match p with
  | .grid g => g.draw rot vp getStroke
  | .noPattern => []

/-- Rust semantics of `f32::max` on the NaN-aware value model
(`none` is NaN, `some q` a finite value): if one of the arguments is
NaN, the other argument is returned; otherwise the ordinary maximum. -/
def f32max (a b : Option ℚ) : Option ℚ :=
  match a, b with
  | none, b => b
  | some x, none => some x
  | some x, some y => some (max x y)

/-- The draw-time clamp `spacing_component.max(1.0)` of `Grid::draw`, on
the NaN-aware value model of one spacing component. -/
def clampSpacingF (s : Option ℚ) : Option ℚ :=
  f32max s (some 1)

/-- Formula of the spec table (section 4.1): screen-to-graph point
transform `(P + offset − center(rect)) / scale`. -/
def specScreenToGraphPos (vp : Viewport) (p : Pos2) : Pos2 :=
  (p + vp.offset - vp.rect.center.toVec2) / vp.scale

/-- Formula of the spec table: graph-to-screen point transform
`P * scale − offset + center(rect)`. -/
def specGraphToScreenPos (vp : Viewport) (p : Pos2) : Pos2 :=
  p * vp.scale - vp.offset + vp.rect.center.toVec2

/-- Formula of the spec table: screen-to-graph vector transform
`V / scale`, with no translation term. -/
def specScreenToGraphVec (vp : Viewport) (v : Vec2) : Vec2 :=
  v / vp.scale

/-- Formula of the spec table: graph-to-screen vector transform
`V * scale`, with no translation term. -/
def specGraphToScreenVec (vp : Viewport) (v : Vec2) : Vec2 :=
  v * vp.scale

/-- Formula of the spec table: screen-to-graph scalar-size transform
`s / scale`. -/
def specScreenToGraphSize (vp : Viewport) (s : ℚ) : ℚ :=
  s / vp.scale

/-- Formula of the spec table: graph-to-screen scalar-size transform
`s * scale`. -/
def specGraphToScreenSize (vp : Viewport) (s : ℚ) : ℚ :=
  s * vp.scale

theorem Pos2.add_def (p : Pos2) (v : Vec2) :
    p + v = Pos2.mk (p.x + v.x) (p.y + v.y) := rfl

theorem Pos2.sub_def (p : Pos2) (v : Vec2) :
    p - v = Pos2.mk (p.x - v.x) (p.y - v.y) := rfl

theorem Pos2.divScalar_def (p : Pos2) (s : ℚ) :
    p / s = Pos2.mk (p.x / s) (p.y / s) := rfl

theorem Pos2.mulScalar_def (p : Pos2) (s : ℚ) :
    p * s = Pos2.mk (p.x * s) (p.y * s) := rfl

theorem Vec2.divByRat_def (v : Vec2) (s : ℚ) :
    v / s = Vec2.mk (v.x / s) (v.y / s) := rfl

theorem Vec2.mulByRat_def (v : Vec2) (s : ℚ) :
    v * s = Vec2.mk (v.x * s) (v.y * s) := rfl

theorem Rot2.mulVec_def (r : Rot2) (v : Vec2) :
    r * v = Vec2.mk (r.c * v.x - r.s * v.y) (r.s * v.x + r.c * v.y) := rfl

theorem Rot2.divRat_def (r : Rot2) (k : ℚ) :
    r / k = Rot2.mk (r.s / k) (r.c / k) := rfl

/-- C5: the `Viewport` transforms compute exactly the spec's formulas —
points get the offset and rect-centre correction, vectors and scalar
sizes are scaled only, with no translation (both vector transforms and
both size transforms fix zero). -/
theorem viewport_transform_formulas (vp : Viewport) (p : Pos2) (v : Vec2)
    (s : ℚ) :
    vp.screenPosToGraph p = specScreenToGraphPos vp p ∧
    vp.graphPosToScreen p = specGraphToScreenPos vp p ∧
    vp.screenVecToGraph v = specScreenToGraphVec vp v ∧
    vp.graphVecToScreen v = specGraphToScreenVec vp v ∧
    vp.screenSizeToGraph s = specScreenToGraphSize vp s ∧
    vp.graphSizeToScreen s = specGraphToScreenSize vp s ∧
    vp.screenVecToGraph (vec2 0 0) = vec2 0 0 ∧
    vp.graphVecToScreen (vec2 0 0) = vec2 0 0 ∧
    vp.screenSizeToGraph 0 = 0 ∧
    vp.graphSizeToScreen 0 = 0 := by
  refine ⟨rfl, rfl, rfl, rfl, rfl, rfl, ?_, ?_, ?_, ?_⟩ <;>
    simp [Viewport.screenVecToGraph, Viewport.graphVecToScreen,
      Viewport.screenSizeToGraph, Viewport.graphSizeToScreen, vec2,
      Vec2.divByRat_def, Vec2.mulByRat_def]

/-- C7: drawing the no-pattern variant produces the empty effect trace —
no line segments and no stroke resolution at all, for every viewport and
style provider. -/
theorem no_pattern_draw_is_noop (rot : Rot2) (vp : Viewport)
    (getStroke : ℚ → Stroke) :
    BackgroundPattern.draw .noPattern rot vp getStroke = [] ∧
    (BackgroundPattern.draw .noPattern rot vp getStroke).countP
      Effect.isLineSegment = 0 ∧
    (BackgroundPattern.draw .noPattern rot vp getStroke).countP
      Effect.isResolveStroke = 0 :=
  ⟨rfl, rfl, rfl⟩

/-- C9: in every grid draw the stroke is resolved exactly once, as the
very first effect (before any enumeration, hence even when both loops
are empty), and every emitted line segment carries that one stroke,
namely the style provider's answer for the viewport scale. -/
theorem grid_draw_single_stroke (g : Grid) (rot : Rot2) (vp : Viewport)
    (getStroke : ℚ → Stroke) :
    (g.draw rot vp getStroke).head? =
      some (Effect.resolveStroke vp.scale) ∧
    (g.draw rot vp getStroke).countP Effect.isResolveStroke = 1 ∧
    ∀ a b st, Effect.lineSegment a b st ∈ g.draw rot vp getStroke →
      st = getStroke vp.scale := by
  refine ⟨rfl, ?_, ?_⟩
  · simp [Grid.draw, List.countP_cons, List.countP_append, List.countP_map,
      Function.comp_def, vertDrawCall, horzDrawCall, Effect.isResolveStroke,
      List.countP_eq_zero]
  · intro a b st hmem
    simp only [Grid.draw, List.mem_cons, List.mem_append, List.mem_map] at hmem
    rcases hmem with h | ⟨x, _, h⟩ | ⟨y, _, h⟩
    · exact absurd h (by simp)
    · simp only [vertDrawCall, Effect.lineSegment.injEq] at h
      exact h.2.2.symm
    · simp only [horzDrawCall, Effect.lineSegment.injEq] at h
      exact h.2.2.symm

/-- C10: a NaN spacing component is replaced by `1.0` by the draw-time
clamp `spacing.max(1.0)` — Rust's `f32::max` returns the other argument
when one is NaN — so the effective spacing is a well-defined value `≥ 1`
for every input, NaN included. -/
theorem nan_spacing_clamps_to_one :
    clampSpacingF none = some 1 ∧
    (∀ q : ℚ, clampSpacingF (some q) = some (max q 1)) ∧
    ∀ s : Option ℚ, ∃ q : ℚ, clampSpacingF s = some q ∧ 1 ≤ q := by
  refine ⟨rfl, fun q => rfl, fun s => ?_⟩
  cases s with
  | none => exact ⟨1, rfl, le_refl 1⟩
  | some q => exact ⟨max q 1, rfl, le_max_right q 1⟩

/-- C2: for every viewport with nonzero scale, the point transforms
`screen_pos_to_graph` / `graph_pos_to_screen` are mutual inverses, and
so are the vector transforms and the scalar-size transforms (exact over
exact arithmetic). -/
theorem viewport_transforms_roundtrip (vp : Viewport) (p : Pos2) (v : Vec2)
    (s : ℚ) (hscale : vp.scale ≠ 0) :
    vp.graphPosToScreen (vp.screenPosToGraph p) = p ∧
    vp.screenPosToGraph (vp.graphPosToScreen p) = p ∧
    vp.graphVecToScreen (vp.screenVecToGraph v) = v ∧
    vp.screenVecToGraph (vp.graphVecToScreen v) = v ∧
    vp.graphSizeToScreen (vp.screenSizeToGraph s) = s ∧
    vp.screenSizeToGraph (vp.graphSizeToScreen s) = s := by
  obtain ⟨rect, sc, off⟩ := vp
  obtain ⟨px, py⟩ := p
  obtain ⟨vx, vy⟩ := v
  simp only [Viewport.screenPosToGraph, Viewport.graphPosToScreen,
    Viewport.graphVecToScreen, Viewport.screenVecToGraph,
    Viewport.graphSizeToScreen, Viewport.screenSizeToGraph,
    Pos2.add_def, Pos2.sub_def, Pos2.divScalar_def, Pos2.mulScalar_def,
    Vec2.divByRat_def, Vec2.mulByRat_def, Pos2.mk.injEq, Vec2.mk.injEq] at *
  refine ⟨⟨?_, ?_⟩, ⟨?_, ?_⟩, ⟨?_, ?_⟩, ⟨?_, ?_⟩, ?_, ?_⟩ <;>
    field_simp <;> ring

/-- Sample viewport (screen rect from `(0,0)` to `(2,2)`, scale `2`,
offset `(3,4)`) used by concrete witnesses. -/
def sampleVp : Viewport :=
  { rect := Rect.fromMinMax (pos2 0 0) (pos2 2 2), scale := 2,
    offset := vec2 3 4 }

/-- Witness for C2: the round-trip identities at a concrete viewport of
scale `2`, point `(5,6)`, vector `(7,8)` and size `9`. -/
theorem viewport_transforms_roundtrip_witness :
    sampleVp.scale ≠ 0 ∧
    (sampleVp.graphPosToScreen (sampleVp.screenPosToGraph (pos2 5 6)) =
        pos2 5 6 ∧
      sampleVp.screenPosToGraph (sampleVp.graphPosToScreen (pos2 5 6)) =
        pos2 5 6 ∧
      sampleVp.graphVecToScreen (sampleVp.screenVecToGraph (vec2 7 8)) =
        vec2 7 8 ∧
      sampleVp.screenVecToGraph (sampleVp.graphVecToScreen (vec2 7 8)) =
        vec2 7 8 ∧
      sampleVp.graphSizeToScreen (sampleVp.screenSizeToGraph 9) = 9 ∧
      sampleVp.screenSizeToGraph (sampleVp.graphSizeToScreen 9) = 9) :=
  ⟨by norm_num [sampleVp],
    viewport_transforms_roundtrip sampleVp (pos2 5 6) (vec2 7 8) 9
      (by norm_num [sampleVp])⟩

/-- Area of the graph-space rectangle spanned by the screen-to-graph
images of the screen rect corners, i.e. of the `graph_viewport` computed
by `Grid::draw`. -/
def graphViewportArea (vp : Viewport) : ℚ :=
  ((graphViewport vp).max.x - (graphViewport vp).min.x) *
    ((graphViewport vp).max.y - (graphViewport vp).min.y)

theorem graphViewportArea_eq (rect : Rect) (off : Vec2) (s : ℚ)
    (hs : s ≠ 0) :
    graphViewportArea { rect := rect, scale := s, offset := off } =
      (rect.max.x - rect.min.x) * (rect.max.y - rect.min.y) / (s * s) := by
  simp only [graphViewportArea, graphViewport, Rect.fromMinMax,
    Viewport.screenPosToGraph, Pos2.add_def, Pos2.sub_def, Pos2.divScalar_def]
  field_simp

/-- C8: for a fixed screen rect of positive area and fixed offset,
increasing the scale strictly decreases the area of the graph-space
rectangle spanned by the screen-to-graph images of the rect corners. -/
theorem graph_area_strict_antitone_in_scale (rect : Rect) (off : Vec2)
    (s1 s2 : ℚ) (h1 : 0 < s1) (h12 : s1 < s2)
    (hx : rect.min.x < rect.max.x) (hy : rect.min.y < rect.max.y) :
    graphViewportArea { rect := rect, scale := s2, offset := off } <
      graphViewportArea { rect := rect, scale := s1, offset := off } := by
  have h2 : 0 < s2 := h1.trans h12
  rw [graphViewportArea_eq rect off s1 (ne_of_gt h1),
    graphViewportArea_eq rect off s2 (ne_of_gt h2)]
  have harea : 0 < (rect.max.x - rect.min.x) * (rect.max.y - rect.min.y) :=
    mul_pos (by linarith) (by linarith)
  exact div_lt_div_of_pos_left harea (mul_pos h1 h1)
    (mul_self_lt_mul_self (le_of_lt h1) h12)

/-- Witness for C8: at the unit screen rect with zero offset, the graph
area at scale `2` is smaller than at scale `1`. -/
theorem graph_area_strict_antitone_in_scale_witness :
    (0 : ℚ) < 1 ∧ (1 : ℚ) < 2 ∧
    (Rect.fromMinMax (pos2 0 0) (pos2 1 1)).min.x <
      (Rect.fromMinMax (pos2 0 0) (pos2 1 1)).max.x ∧
    (Rect.fromMinMax (pos2 0 0) (pos2 1 1)).min.y <
      (Rect.fromMinMax (pos2 0 0) (pos2 1 1)).max.y ∧
    graphViewportArea
        { rect := Rect.fromMinMax (pos2 0 0) (pos2 1 1), scale := 2,
          offset := vec2 0 0 } <
      graphViewportArea
        { rect := Rect.fromMinMax (pos2 0 0) (pos2 1 1), scale := 1,
          offset := vec2 0 0 } :=
  ⟨by norm_num, by norm_num,
    by norm_num [Rect.fromMinMax, pos2],
    by norm_num [Rect.fromMinMax, pos2],
    graph_area_strict_antitone_in_scale
      (Rect.fromMinMax (pos2 0 0) (pos2 1 1)) (vec2 0 0) 1 2
      (by norm_num) (by norm_num)
      (by norm_num [Rect.fromMinMax, pos2])
      (by norm_num [Rect.fromMinMax, pos2])⟩

theorem truncQ_intCast (n : ℤ) : truncQ (n : ℚ) = n := by
  unfold truncQ
  split <;> simp

theorem rangeToInclusive_eq_nil (hi : ℤ) (h : hi < 0) :
    rangeToInclusive hi = [] := by
  unfold rangeToInclusive
  have h0 : (hi + 1).toNat = 0 := Int.toNat_of_nonpos (by omega)
  simp [h0]

theorem rangeToInclusive_of_nonneg (hi : ℤ) (h : 0 ≤ hi) :
    rangeToInclusive hi =
      (List.range (hi + 1).toNat).map (fun j : ℕ => (j : ℤ)) := rfl

/-- The difference `max_x - min_x` fed to the `as i64` cast is the
integer difference of the floor and ceil indices. -/
theorem maxX_sub_minX (g : Grid) (rot : Rot2) (vp : Viewport) :
    g.maxX rot vp - g.minX rot vp =
      ((⌊(patternBounds rot vp).max.x / g.effectiveSpacing.x⌋ -
        ⌈(patternBounds rot vp).min.x / g.effectiveSpacing.x⌉ : ℤ) : ℚ) := by
  unfold Grid.maxX Grid.minX
  push_cast
  ring

/-- Symmetric form of `maxX_sub_minX` for the y axis. -/
theorem maxY_sub_minY (g : Grid) (rot : Rot2) (vp : Viewport) :
    g.maxY rot vp - g.minY rot vp =
      ((⌊(patternBounds rot vp).max.y / g.effectiveSpacing.y⌋ -
        ⌈(patternBounds rot vp).min.y / g.effectiveSpacing.y⌉ : ℤ) : ℚ) := by
  unfold Grid.maxY Grid.minY
  push_cast
  ring

/-- On integer-valued inputs (which the floor/ceil differences always
are), the saturating `as i64` cast is the clamp of the integer itself. -/
theorem ratAsI64_intCast (n : ℤ) :
    ratAsI64 (n : ℚ) = max (-(2 ^ 63)) (min (2 ^ 63 - 1) n) := by
  unfold ratAsI64
  rw [truncQ_intCast]

/-- C3: whenever the computed `max` index is strictly below the computed
`min` index on an axis, that axis enumerates no lines at all — the loop
list is empty, it never wraps to a huge range — and the value of the
signed 64-bit loop bound always lies in the `i64` range, for every input
whatsoever. -/
theorem empty_index_range_draws_nothing (g : Grid) (rot : Rot2)
    (vp : Viewport) :
    (g.maxX rot vp < g.minX rot vp → g.vertXs rot vp = []) ∧
    (g.maxY rot vp < g.minY rot vp → g.horzYs rot vp = []) ∧
    (∀ q : ℚ, -(2 ^ 63) ≤ ratAsI64 q ∧ ratAsI64 q ≤ 2 ^ 63 - 1) := by
  refine ⟨?_, ?_, fun q => ⟨le_max_left _ _, max_le (by norm_num)
    (min_le_left _ _)⟩⟩
  · intro h
    have h' : (⌊(patternBounds rot vp).max.x / g.effectiveSpacing.x⌋ : ℤ) <
        ⌈(patternBounds rot vp).min.x / g.effectiveSpacing.x⌉ := by
      unfold Grid.maxX Grid.minX at h
      exact_mod_cast h
    unfold Grid.vertXs
    rw [maxX_sub_minX, ratAsI64_intCast, rangeToInclusive_eq_nil _
      (max_lt (by norm_num)
        (lt_of_le_of_lt (min_le_right _ _) (by omega)))]
    simp
  · intro h
    have h' : (⌊(patternBounds rot vp).max.y / g.effectiveSpacing.y⌋ : ℤ) <
        ⌈(patternBounds rot vp).min.y / g.effectiveSpacing.y⌉ := by
      unfold Grid.maxY Grid.minY at h
      exact_mod_cast h
    unfold Grid.horzYs
    rw [maxY_sub_minY, ratAsI64_intCast, rangeToInclusive_eq_nil _
      (max_lt (by norm_num)
        (lt_of_le_of_lt (min_le_right _ _) (by omega)))]
    simp

/-- Viewport lying strictly between two grid lines of a very wide grid:
screen rect `(0,0)–(10,10)`, scale `1`, offset `(12,12)`, so the graph
viewport is `(7,7)–(17,17)`. -/
def betweenVp : Viewport :=
  { rect := Rect.fromMinMax (pos2 0 0) (pos2 10 10), scale := 1,
    offset := vec2 12 12 }

/-- Grid with spacing `1000` on both axes and angle `0`. -/
def wideGrid : Grid := Grid.new (vec2 1000 1000) 0

/-- Witness for C3: with spacing `1000` and a graph viewport of
`(7,7)–(17,17)`, the index intervals are `[1, 0]` on both axes and both
loops are empty. -/
theorem empty_index_range_draws_nothing_witness :
    wideGrid.maxX Rot2.identity betweenVp <
      wideGrid.minX Rot2.identity betweenVp ∧
    wideGrid.vertXs Rot2.identity betweenVp = [] := by
  have hpb : patternBounds Rot2.identity betweenVp =
      Rect.fromMinMax (pos2 7 7) (pos2 17 17) := by
    norm_num [patternBounds, graphViewport, Rect.rotateBB, Rot2.inverse,
      Rot2.lengthSquared, Rot2.identity, Rot2.mulVec_def, Rot2.divRat_def,
      Vec2.cmin, Vec2.cmax, Rect.leftTop, Rect.rightTop, Rect.leftBottom,
      Rect.rightBottom, Viewport.screenPosToGraph, Pos2.add_def, Pos2.sub_def,
      Pos2.divScalar_def, Rect.center, Vec2.toPos2, Pos2.toVec2, Rect.fromMinMax,
      vec2, pos2, betweenVp]
  have hmin : wideGrid.minX Rot2.identity betweenVp = 1 := by
    rw [Grid.minX, hpb]
    norm_num [Grid.effectiveSpacing, Grid.new, wideGrid, vec2,
      Rect.fromMinMax, pos2, Int.ceil_eq_iff]
  have hmax : wideGrid.maxX Rot2.identity betweenVp = 0 := by
    rw [Grid.maxX, hpb]
    norm_num [Grid.effectiveSpacing, Grid.new, wideGrid, vec2,
      Rect.fromMinMax, pos2, Int.floor_eq_iff]
  have hlt : wideGrid.maxX Rot2.identity betweenVp <
      wideGrid.minX Rot2.identity betweenVp := by
    rw [hmin, hmax]; norm_num
  exact ⟨hlt,
    (empty_index_range_draws_nothing wideGrid Rot2.identity betweenVp).1 hlt⟩

/-- The bounding box returned by `rotate_bb` always has its `min` corner
componentwise below its `max` corner. -/
theorem rotateBB_min_le_max (r : Rect) (rot : Rot2) :
    (r.rotateBB rot).min.x ≤ (r.rotateBB rot).max.x ∧
    (r.rotateBB rot).min.y ≤ (r.rotateBB rot).max.y := by
  simp only [Rect.rotateBB, Rect.fromMinMax, Vec2.cmin, Vec2.cmax,
    Vec2.toPos2, Pos2.toVec2]
  constructor
  · exact le_trans (le_trans (min_le_left _ _) (min_le_left _ _))
      (le_trans (le_max_left _ _) (le_max_left _ _))
  · exact le_trans (le_trans (min_le_left _ _) (min_le_left _ _))
      (le_trans (le_max_left _ _) (le_max_left _ _))

/-- Length bound for one axis of the enumeration loop: the number of
values of `0..=(floor(b/sp) - ceil(a/sp)) as i64` is at most
`(b - a)/sp + 1` when `1 ≤ sp` and `a ≤ b`. -/
theorem axisCountBound (a b sp : ℚ) (hsp : 1 ≤ sp) (hab : a ≤ b) :
    ((rangeToInclusive (ratAsI64 (((⌊b / sp⌋ : ℤ) : ℚ) -
      ((⌈a / sp⌉ : ℤ) : ℚ)))).length : ℚ) ≤ (b - a) / sp + 1 := by
  have hsp0 : (0 : ℚ) < sp := lt_of_lt_of_le one_pos hsp
  have hcast : ((⌊b / sp⌋ : ℤ) : ℚ) - ((⌈a / sp⌉ : ℤ) : ℚ) =
      ((⌊b / sp⌋ - ⌈a / sp⌉ : ℤ) : ℚ) := by push_cast; ring
  rw [hcast, ratAsI64_intCast]
  set t : ℤ := ⌊b / sp⌋ - ⌈a / sp⌉ with ht
  set d : ℤ := max (-(2 ^ 63)) (min (2 ^ 63 - 1) t) with hd
  have hlenval : (rangeToInclusive d).length = (d + 1).toNat := by
    unfold rangeToInclusive
    simp
  rcases le_or_lt (d + 1) 0 with hneg | hpos
  · have h0 : (d + 1).toNat = 0 := Int.toNat_of_nonpos hneg
    rw [hlenval, h0]
    have hdivnn : (0 : ℚ) ≤ (b - a) / sp :=
      div_nonneg (by linarith) (le_of_lt hsp0)
    push_cast
    linarith
  · have hd0 : (0 : ℤ) ≤ d := by omega
    have hdt : d ≤ t := by
      rcases le_total (-(2 ^ 63) : ℤ) (min (2 ^ 63 - 1) t) with hc | hc
      · rw [hd, max_eq_right hc]
        exact min_le_right _ _
      · exfalso
        rw [hd, max_eq_left hc] at hd0
        norm_num at hd0
    rw [hlenval]
    have hQ : (((d + 1).toNat : ℕ) : ℚ) = (d : ℚ) + 1 := by
      have h1 : ((d + 1).toNat : ℤ) = d + 1 := Int.toNat_of_nonneg (by omega)
      exact_mod_cast h1
    rw [hQ]
    have hM : ((⌊b / sp⌋ : ℤ) : ℚ) ≤ b / sp := Int.floor_le _
    have hm : a / sp ≤ ((⌈a / sp⌉ : ℤ) : ℚ) := Int.le_ceil _
    have htQ : (t : ℚ) = ((⌊b / sp⌋ : ℤ) : ℚ) - ((⌈a / sp⌉ : ℤ) : ℚ) := by
      rw [ht]; push_cast; ring
    have hdQ : (d : ℚ) ≤ (t : ℚ) := by exact_mod_cast hdt
    have hsub : (b - a) / sp = b / sp - a / sp := sub_div b a sp
    linarith

/-- C4: construction stores the spacing and angle unmodified (no
rejection, no clamping at construction time); the effective spacing used
at draw time is at least `1` per axis, equals `(1,1)` for a zero-spacing
grid, and each axis loop of the draw runs a finite number of iterations
bounded by the pattern-bounds extent divided by the effective spacing
plus one. -/
theorem grid_draw_iteration_bound (g : Grid) (rot : Rot2) (vp : Viewport)
    (spacing : Vec2) (angle : ℚ) :
    ((Grid.new spacing angle).spacing = spacing ∧
      (Grid.new spacing angle).angle = angle) ∧
    (1 ≤ g.effectiveSpacing.x ∧ 1 ≤ g.effectiveSpacing.y) ∧
    (Grid.new (vec2 0 0) angle).effectiveSpacing = vec2 1 1 ∧
    ((g.vertXs rot vp).length : ℚ) ≤
      ((patternBounds rot vp).max.x - (patternBounds rot vp).min.x) /
        g.effectiveSpacing.x + 1 ∧
    ((g.horzYs rot vp).length : ℚ) ≤
      ((patternBounds rot vp).max.y - (patternBounds rot vp).min.y) /
        g.effectiveSpacing.y + 1 := by
  refine ⟨⟨rfl, rfl⟩, ⟨le_max_right _ _, le_max_right _ _⟩, ?_, ?_, ?_⟩
  · have h01 : max (0 : ℚ) 1 = 1 := max_eq_right (by norm_num)
    simp [Grid.new, Grid.effectiveSpacing, vec2, h01]
  · have hx := axisCountBound (patternBounds rot vp).min.x
      (patternBounds rot vp).max.x g.effectiveSpacing.x
      (le_max_right _ _) (rotateBB_min_le_max _ _).1
    unfold Grid.vertXs
    rw [List.length_map]
    exact hx
  · have hy := axisCountBound (patternBounds rot vp).min.y
      (patternBounds rot vp).max.y g.effectiveSpacing.y
      (le_max_right _ _) (rotateBB_min_le_max _ _).2
    unfold Grid.horzYs
    rw [List.length_map]
    exact hy

/-- C6: for a unit rotation (as every `Rot2::from_angle` value is), the
forward rotation undoes the inverse rotation used for the pattern
bounds; the grid draw trace is exactly one stroke resolution followed by
one line-segment call per enumerated line, the vertical ones spanning
`pattern_bounds.min.y..max.y` at their local `x` and the horizontal ones
spanning `pattern_bounds.min.x..max.x` at their local `y`, each endpoint
rotated forward by `rot` and then mapped by `graph_pos_to_screen`. -/
theorem grid_draw_line_endpoints (g : Grid) (rot : Rot2) (vp : Viewport)
    (getStroke : ℚ → Stroke) (hrot : rot.lengthSquared = 1) :
    (∀ v : Vec2, rot * (rot.inverse * v) = v) ∧
    g.draw rot vp getStroke =
      Effect.resolveStroke vp.scale ::
        ((g.vertXs rot vp).map (fun x =>
          Effect.lineSegment
            (vp.graphPosToScreen
              ((rot * vec2 x (patternBounds rot vp).min.y).toPos2))
            (vp.graphPosToScreen
              ((rot * vec2 x (patternBounds rot vp).max.y).toPos2))
            (getStroke vp.scale)) ++
          (g.horzYs rot vp).map (fun y =>
          Effect.lineSegment
            (vp.graphPosToScreen
              ((rot * vec2 (patternBounds rot vp).min.x y).toPos2))
            (vp.graphPosToScreen
              ((rot * vec2 (patternBounds rot vp).max.x y).toPos2))
            (getStroke vp.scale))) ∧
    (g.draw rot vp getStroke).countP Effect.isLineSegment =
      (g.vertXs rot vp).length + (g.horzYs rot vp).length := by
  refine ⟨?_, ?_, ?_⟩
  · intro v
    obtain ⟨vx, vy⟩ := v
    obtain ⟨rs, rc⟩ := rot
    simp only [Rot2.lengthSquared] at hrot
    simp only [Rot2.inverse, Rot2.lengthSquared, Rot2.divRat_def,
      Rot2.mulVec_def, Vec2.mk.injEq]
    rw [hrot]
    constructor
    · field_simp
      linear_combination vx * hrot
    · field_simp
      linear_combination vy * hrot
  · unfold Grid.draw
    refine congrArg (Effect.resolveStroke vp.scale :: ·) ?_
    refine congrArg₂ (· ++ ·) ?_ ?_
    · exact List.map_congr_left (fun x _ => by simp [vertDrawCall])
    · exact List.map_congr_left (fun y _ => by simp [horzDrawCall])
  · simp [Grid.draw, List.countP_cons, List.countP_append, List.countP_map,
      Function.comp_def, vertDrawCall, horzDrawCall, Effect.isLineSegment,
      Effect.isResolveStroke, List.countP_true]

/-- The default grid (spacing `(50,50)`), used by concrete witnesses. -/
def sampleGrid : Grid := Grid.new (vec2 50 50) 0

/-- Constant sample style provider for concrete witnesses. -/
def sampleStroke : ℚ → Stroke := fun _ => Stroke.mk 1 0

/-- Witness for C6: at the identity rotation (angle `0`, a unit
rotation), the forward rotation cancels the inverse rotation on a
concrete vector, via the endpoint theorem at concrete inputs. -/
theorem grid_draw_line_endpoints_witness :
    Rot2.identity.lengthSquared = 1 ∧
    Rot2.identity * (Rot2.identity.inverse * vec2 3 4) = vec2 3 4 :=
  ⟨by norm_num [Rot2.identity, Rot2.lengthSquared],
    (grid_draw_line_endpoints sampleGrid Rot2.identity sampleVp sampleStroke
      (by norm_num [Rot2.identity, Rot2.lengthSquared])).1 (vec2 3 4)⟩

/-- Closed integer range `[lo, hi]` as a list, for stating the spec's
"enumerate the closed integer range" step. -/
def intRangeClosed (lo hi : ℤ) : List ℤ :=
  (List.range (hi - lo + 1).toNat).map (fun j : ℕ => lo + (j : ℤ))

theorem mem_intRangeClosed (lo hi k : ℤ) :
    k ∈ intRangeClosed lo hi ↔ lo ≤ k ∧ k ≤ hi := by
  unfold intRangeClosed
  simp only [List.mem_map, List.mem_range]
  constructor
  · rintro ⟨j, hj, rfl⟩
    omega
  · rintro ⟨h1, h2⟩
    exact ⟨(k - lo).toNat, by omega, by omega⟩

theorem intRangeClosed_nodup (lo hi : ℤ) : (intRangeClosed lo hi).Nodup := by
  unfold intRangeClosed
  exact (List.nodup_range _).map (fun j₁ j₂ h => by omega)

/-- One axis of the enumeration, exactly: under the no-saturation
hypothesis, the loop values `(i + ceil(a/sp)) * sp` for
`i in 0..=(floor(b/sp) - ceil(a/sp)) as i64` are precisely the closed
integer index range `[ceil(a/sp), floor(b/sp)]` scaled by `sp`; those
are precisely the multiples of `sp` lying in `[a, b]`; and they are
pairwise distinct. -/
theorem axisEnumeration (a b sp : ℚ) (hsp : 1 ≤ sp)
    (hfit : ((⌊b / sp⌋ - ⌈a / sp⌉ : ℤ) : ℚ) ≤ 2 ^ 63 - 1) :
    ((rangeToInclusive (ratAsI64 (((⌊b / sp⌋ : ℤ) : ℚ) -
        ((⌈a / sp⌉ : ℤ) : ℚ)))).map
      (fun i : ℤ => ((i : ℚ) + ((⌈a / sp⌉ : ℤ) : ℚ)) * sp) =
      (intRangeClosed ⌈a / sp⌉ ⌊b / sp⌋).map
        (fun k : ℤ => (k : ℚ) * sp)) ∧
    (∀ q : ℚ,
      q ∈ (intRangeClosed ⌈a / sp⌉ ⌊b / sp⌋).map
          (fun k : ℤ => (k : ℚ) * sp) ↔
      ∃ k : ℤ, q = (k : ℚ) * sp ∧ a ≤ q ∧ q ≤ b) ∧
    ((intRangeClosed ⌈a / sp⌉ ⌊b / sp⌋).map
      (fun k : ℤ => (k : ℚ) * sp)).Nodup := by
  have hsp0 : (0 : ℚ) < sp := lt_of_lt_of_le one_pos hsp
  set m : ℤ := ⌈a / sp⌉ with hm
  set M : ℤ := ⌊b / sp⌋ with hM
  have hcast : ((M : ℤ) : ℚ) - ((m : ℤ) : ℚ) = ((M - m : ℤ) : ℚ) := by
    push_cast; ring
  have hfitZ : M - m ≤ 2 ^ 63 - 1 := by
    have h2 : ((2 : ℚ) ^ 63 - 1) = ((2 ^ 63 - 1 : ℤ) : ℚ) := by push_cast; ring
    rw [h2] at hfit
    exact_mod_cast hfit
  refine ⟨?_, ?_, ?_⟩
  · rw [hcast, ratAsI64_intCast, min_eq_right hfitZ]
    rcases le_or_lt (-(2 ^ 63) : ℤ) (M - m) with hlo | hlo
    · rw [max_eq_right hlo]
      unfold rangeToInclusive intRangeClosed
      rw [List.map_map, List.map_map]
      exact List.map_congr_left (fun j _ => by
        simp only [Function.comp_apply]
        push_cast
        ring)
    · rw [max_eq_left (le_of_lt hlo)]
      rw [rangeToInclusive_eq_nil _ (by norm_num)]
      unfold intRangeClosed
      have h0 : (M - m + 1).toNat = 0 := Int.toNat_of_nonpos (by omega)
      rw [h0]
      simp
  · intro q
    simp only [List.mem_map, mem_intRangeClosed]
    constructor
    · rintro ⟨k, ⟨hk1, hk2⟩, rfl⟩
      refine ⟨k, rfl, ?_, ?_⟩
      · exact (div_le_iff hsp0).mp (Int.ceil_le.mp hk1)
      · exact (le_div_iff hsp0).mp (Int.le_floor.mp hk2)
    · rintro ⟨k, rfl, h1, h2⟩
      exact ⟨k, ⟨Int.ceil_le.mpr ((div_le_iff hsp0).mpr h1),
        Int.le_floor.mpr ((le_div_iff hsp0).mpr h2)⟩, rfl⟩
  · refine (intRangeClosed_nodup m M).map ?_
    intro k₁ k₂ h
    have : (k₁ : ℚ) = (k₂ : ℚ) :=
      mul_right_cancel₀ (ne_of_gt hsp0) h
    exact_mod_cast this

/-- C1: at angle `0` (identity rotation), the pattern-local
x-coordinates of the vertical lines enumerated by `Grid::draw` are
exactly `index * effective_spacing.x` for each integer index in the
closed range `[ceil(bounds.min.x / spacing.x), floor(bounds.max.x /
spacing.x)]`; equivalently they are exactly the multiples of the
effective x-spacing lying inside the pattern bounds, with no gaps and no
duplicates; symmetrically for the horizontal lines on the y axis.  (The
fit hypotheses exclude index ranges beyond the saturating `as i64`
cast.) -/
theorem grid_coverage_angle_zero (g : Grid) (vp : Viewport)
    (hfitx : g.maxX Rot2.identity vp - g.minX Rot2.identity vp ≤
      2 ^ 63 - 1)
    (hfity : g.maxY Rot2.identity vp - g.minY Rot2.identity vp ≤
      2 ^ 63 - 1) :
    (g.vertXs Rot2.identity vp =
      (intRangeClosed
        ⌈(patternBounds Rot2.identity vp).min.x / g.effectiveSpacing.x⌉
        ⌊(patternBounds Rot2.identity vp).max.x / g.effectiveSpacing.x⌋).map
        (fun k : ℤ => (k : ℚ) * g.effectiveSpacing.x)) ∧
    (∀ q : ℚ, q ∈ g.vertXs Rot2.identity vp ↔
      ∃ k : ℤ, q = (k : ℚ) * g.effectiveSpacing.x ∧
        (patternBounds Rot2.identity vp).min.x ≤ q ∧
        q ≤ (patternBounds Rot2.identity vp).max.x) ∧
    (g.vertXs Rot2.identity vp).Nodup ∧
    (g.horzYs Rot2.identity vp =
      (intRangeClosed
        ⌈(patternBounds Rot2.identity vp).min.y / g.effectiveSpacing.y⌉
        ⌊(patternBounds Rot2.identity vp).max.y / g.effectiveSpacing.y⌋).map
        (fun k : ℤ => (k : ℚ) * g.effectiveSpacing.y)) ∧
    (∀ q : ℚ, q ∈ g.horzYs Rot2.identity vp ↔
      ∃ k : ℤ, q = (k : ℚ) * g.effectiveSpacing.y ∧
        (patternBounds Rot2.identity vp).min.y ≤ q ∧
        q ≤ (patternBounds Rot2.identity vp).max.y) ∧
    (g.horzYs Rot2.identity vp).Nodup := by
  have hx := axisEnumeration (patternBounds Rot2.identity vp).min.x
    (patternBounds Rot2.identity vp).max.x g.effectiveSpacing.x
    (le_max_right _ _) (by
      rw [← maxX_sub_minX]
      exact hfitx)
  have hy := axisEnumeration (patternBounds Rot2.identity vp).min.y
    (patternBounds Rot2.identity vp).max.y g.effectiveSpacing.y
    (le_max_right _ _) (by
      rw [← maxY_sub_minY]
      exact hfity)
  have heqx : g.vertXs Rot2.identity vp =
      (intRangeClosed
        ⌈(patternBounds Rot2.identity vp).min.x / g.effectiveSpacing.x⌉
        ⌊(patternBounds Rot2.identity vp).max.x / g.effectiveSpacing.x⌋).map
        (fun k : ℤ => (k : ℚ) * g.effectiveSpacing.x) := hx.1
  have heqy : g.horzYs Rot2.identity vp =
      (intRangeClosed
        ⌈(patternBounds Rot2.identity vp).min.y / g.effectiveSpacing.y⌉
        ⌊(patternBounds Rot2.identity vp).max.y / g.effectiveSpacing.y⌋).map
        (fun k : ℤ => (k : ℚ) * g.effectiveSpacing.y) := hy.1
  refine ⟨heqx, ?_, ?_, heqy, ?_, ?_⟩
  · intro q
    rw [heqx]
    exact hx.2.1 q
  · rw [heqx]
    exact hx.2.2
  · intro q
    rw [heqy]
    exact hy.2.1 q
  · rw [heqy]
    exact hy.2.2

/-- Screen rect of width/height `500` at scale `1` and offset `(0,0)`,
the concrete coverage scenario of the spec. -/
def coverVp : Viewport :=
  { rect := Rect.fromMinMax (pos2 0 0) (pos2 500 500), scale := 1,
    offset := vec2 0 0 }

/-- Witness for C1: in the spec's concrete scenario (spacing `(50,50)`,
`500`-wide screen rect, scale `1`, offset `(0,0)`, angle `0`) the fit
hypotheses hold — the index range is `[-5, 5]`, far below the `i64`
bound — and the enumerated vertical local x-coordinates are exactly the
scaled closed index range. -/
theorem grid_coverage_angle_zero_witness :
    sampleGrid.maxX Rot2.identity coverVp -
      sampleGrid.minX Rot2.identity coverVp ≤ 2 ^ 63 - 1 ∧
    sampleGrid.maxY Rot2.identity coverVp -
      sampleGrid.minY Rot2.identity coverVp ≤ 2 ^ 63 - 1 ∧
    sampleGrid.vertXs Rot2.identity coverVp =
      (intRangeClosed
        ⌈(patternBounds Rot2.identity coverVp).min.x /
          sampleGrid.effectiveSpacing.x⌉
        ⌊(patternBounds Rot2.identity coverVp).max.x /
          sampleGrid.effectiveSpacing.x⌋).map
        (fun k : ℤ => (k : ℚ) * sampleGrid.effectiveSpacing.x) := by
  have hpb : patternBounds Rot2.identity coverVp =
      Rect.fromMinMax (pos2 (-250) (-250)) (pos2 250 250) := by
    norm_num [patternBounds, graphViewport, Rect.rotateBB, Rot2.inverse,
      Rot2.lengthSquared, Rot2.identity, Rot2.mulVec_def, Rot2.divRat_def,
      Vec2.cmin, Vec2.cmax, Rect.leftTop, Rect.rightTop, Rect.leftBottom,
      Rect.rightBottom, Viewport.screenPosToGraph, Pos2.add_def, Pos2.sub_def,
      Pos2.divScalar_def, Rect.center, Vec2.toPos2, Pos2.toVec2, Rect.fromMinMax,
      vec2, pos2, coverVp]
  have hes : sampleGrid.effectiveSpacing = vec2 50 50 := by
    have h1 : max (50 : ℚ) 1 = 50 := max_eq_left (by norm_num)
    simp [sampleGrid, Grid.new, Grid.effectiveSpacing, vec2, h1]
  have hfx : sampleGrid.maxX Rot2.identity coverVp -
      sampleGrid.minX Rot2.identity coverVp ≤ 2 ^ 63 - 1 := by
    rw [Grid.maxX, Grid.minX, hpb, hes]
    norm_num [Rect.fromMinMax, pos2, vec2, Int.ceil_neg, Int.floor_ofNat]
  have hfy : sampleGrid.maxY Rot2.identity coverVp -
      sampleGrid.minY Rot2.identity coverVp ≤ 2 ^ 63 - 1 := by
    rw [Grid.maxY, Grid.minY, hpb, hes]
    norm_num [Rect.fromMinMax, pos2, vec2, Int.ceil_neg, Int.floor_ofNat]
  exact ⟨hfx, hfy,
    (grid_coverage_angle_zero sampleGrid coverVp hfx hfy).1⟩

end EguiSnarl
